import Mathlib

/-
  Verification development for the lambda-local invocation engine
  (src/src/lambdalocal.ts).  The definitions below are a shallow embedding
  of the TypeScript source: JS values are modelled by an inductive type,
  the mutable process environment by an association list, and the
  per-invocation completion protocol by an explicit state, with theorems
  settling the specification claims about them.
-/

namespace LambdaLocal

/-! ## JS values

A JS value as it appears in this program: JSON-style data plus promises
(the only thenables the engine wires up) and opaque function values. -/

inductive JsValue where
  | undefined
  | null
  | boolean (b : Bool)
  | number (n : Int)
  | string (s : String)
  | array (xs : List JsValue)
  | object (fields : List (String × JsValue))
  | promise (outcome : Except JsValue JsValue)
  | func

/-- JS truthiness of the modelled values (`if (v)`). -/
def JsValue.truthy : JsValue → Bool
  | .undefined => false
  | .null => false
  | .boolean b => b
  | .number n => n != 0
  | .string s => s != ""
  | .array _ => true
  | .object _ => true
  | .promise _ => true
  | .func => true

/-- First binding of a key in an object field list. -/
def jsLookup : List (String × JsValue) → String → Option JsValue
  | [], _ => none
  | (k, v) :: rest, key => if k == key then some v else jsLookup rest key

/-- Property read `v[key]` on an object; absent fields read as `undefined`. -/
def JsValue.getField (v : JsValue) (key : String) : JsValue :=
  match v with
  | .object fs =>
    match jsLookup fs key with
    | some x => x
    | none => .undefined
  | _ => .undefined

/-! ## The invocation context and its completion protocol

Modelled from the spec: `lib/context.js` is not under src/.  Per spec
section 4.3, operations `succeed(value)`, `fail(error)`, `done(error,
value)` all route through a single guarded completion routine: the first
call wins, any subsequent call is a no-op that must not throw and must
not re-invoke the finalization hook; the timeout is a competing
completion path that force-fails the context.  `completion = none`
is the Pending state; `finalizedCount` counts finalization-hook runs. -/

structure Context where
  completion : Option (Except JsValue JsValue)
  finalizedCount : Nat

/-- A freshly created context: Pending, finalization hook not yet run. -/
def Context.pending : Context := ⟨none, 0⟩

/-- Modelled from the spec: the single guarded completion routine of
`lib/context.js` (not under src/): on the first transition out of
Pending it records the outcome and runs the finalization hook; on an
already-completed context it is a no-op. -/
def Context.complete (c : Context) (out : Except JsValue JsValue) : Context :=
  match c.completion with
  | some _ => c
  | none => ⟨some out, c.finalizedCount + 1⟩

/-- The competing completion paths of one invocation
(src/src/lambdalocal.ts lines 254-268 plus the context timeout). -/
inductive CompletionCall where
  | done (err : JsValue) (val : JsValue)
  | succeed (v : JsValue)
  | fail (e : JsValue)
  | promiseResolve (v : JsValue)
  | promiseReject (e : JsValue)
  | plainReturn
  | timeout

/-- Outcome each completion path submits to the guarded routine. -/
def outcomeOf : CompletionCall → Except JsValue JsValue
  | .done err val => if err.truthy then .error err else .ok val
  | .succeed v => .ok v
  | .fail e => .error e
  | .promiseResolve v => .ok v
  | .promiseReject e => .error e
  | .plainReturn => .ok .null
  | .timeout => .error (.string "TimeoutError")

/-- Fire a sequence of completion calls against one context. -/
def runCalls (c : Context) (calls : List CompletionCall) : Context :=
  calls.foldl (fun acc call => acc.complete (outcomeOf call)) c

/-- Whether `result.then` is truthy (the check on line 260). -/
def hasTruthyThen : JsValue → Bool
  | .promise _ => true
  | .object fs =>
    match jsLookup fs "then" with
    | some v => v.truthy
    | none => false
  | _ => false

/-- Lines 259-265 of src/src/lambdalocal.ts: the treatment of the
handler's return value.  A truthy thenable is wired to succeed/fail; a
truthy promise-less `then` field makes `result.then(...)` throw a
TypeError which the surrounding try routes to fail; a truthy plain value
completes with `succeed(null)`; a falsy value is ignored. -/
def handleResult (c : Context) (result : JsValue) : Context :=
  if result.truthy then
    if hasTruthyThen result then
      match result with
      | .promise out => c.complete out
      | _ => c.complete (.error (.string "TypeError: result.then is not a function"))
    else c.complete (.ok .null)
  else c

/-- What a handler body does when called: explicit completion calls made
during the body, then either a synchronous throw or a return value. -/
inductive HandlerOutcome where
  | throws (e : JsValue)
  | returns (v : JsValue)

structure HandlerRun where
  calls : List CompletionCall
  outcome : HandlerOutcome

/-- Lines 257-268: call the handler; a synchronous throw is caught and
routed to `ctx.fail`, a return value goes through `handleResult`. -/
def runInvocation (c : Context) (f : HandlerRun) : Context :=
  let c1 := runCalls c f.calls
  match f.outcome with
  | .throws e => c1.complete (.error e)
  | .returns v => handleResult c1 v

/-! ## The process environment

`process.env` as an association list (first binding wins on lookup). -/

def Env := List (String × String)

def envGet : Env → String → Option String
  | [], _ => none
  | (k1, v) :: rest, k => if k1 == k then some v else envGet rest k

/-- JS truthiness of `process.env[k]`: set and nonempty. -/
def envTruthy (e : Env) (k : String) : Bool :=
  match envGet e k with
  | some v => v != ""
  | none => false

/-- src/src/lambdalocal.ts lines 101-110: sets each key only when the
current value is falsy. -/
def updateEnv (vars : List (String × String)) (e : Env) : Env :=
  vars.foldl (fun acc kv => if envTruthy acc kv.1 then acc else (kv.1, kv.2) :: acc) e

/-- Lines 186-188: caller-supplied custom environment, always assigned. -/
def applyOverrides (vars : List (String × String)) (e : Env) : Env :=
  vars.foldl (fun acc kv => (kv.1, kv.2) :: acc) e

/-- JS `a || d` on an optional string (empty string is falsy). -/
def jsOrStr (a : Option String) (d : String) : String :=
  match a with
  | some s => if s == "" then d else s
  | none => d

/-! ## JSON.parse

A recursive-descent model of `JSON.parse` over the character list of the
input (fuel-indexed for termination).  It covers null, booleans, integer
numbers, strings with the single-character escapes, arrays and objects;
inputs outside this fragment are rejected, which only narrows the
hypotheses of the theorems that assume a successful parse. -/

def skipWs : List Char → List Char
  | [] => []
  | c :: cs =>
    if c == ' ' || c == Char.ofNat 9 || c == Char.ofNat 10 || c == Char.ofNat 13 then
      skipWs cs
    else c :: cs

def parseStrChars : List Char → List Char → Option (String × List Char)
  | _, [] => none
  | acc, c :: rest =>
    if c == Char.ofNat 34 then some (String.mk acc.reverse, rest)
    else if c == Char.ofNat 92 then
      match rest with
      | [] => none
      | e :: rest2 =>
        let dec : Option Char :=
          if e == Char.ofNat 34 then some (Char.ofNat 34)
          else if e == Char.ofNat 92 then some (Char.ofNat 92)
          else if e == '/' then some '/'
          else if e == 'n' then some (Char.ofNat 10)
          else if e == 't' then some (Char.ofNat 9)
          else if e == 'r' then some (Char.ofNat 13)
          else if e == 'b' then some (Char.ofNat 8)
          else if e == 'f' then some (Char.ofNat 12)
          else none
        match dec with
        | some d => parseStrChars (d :: acc) rest2
        | none => none
    else parseStrChars (c :: acc) rest

def digitsToNat (acc : Nat) : List Char → Nat × List Char
  | [] => (acc, [])
  | c :: cs => if c.isDigit then digitsToNat (acc * 10 + (c.toNat - 48)) cs else (acc, c :: cs)

def parseNumberChars : List Char → Option (Int × List Char)
  | [] => none
  | c :: rest =>
    if c == '-' then
      match rest with
      | d :: _ =>
        if d.isDigit then
          let r := digitsToNat 0 rest
          some (-(r.1 : Int), r.2)
        else none
      | [] => none
    else if c.isDigit then
      let r := digitsToNat 0 (c :: rest)
      some ((r.1 : Int), r.2)
    else none

mutual

def parseVal : Nat → List Char → Option (JsValue × List Char)
  | 0, _ => none
  | Nat.succ fuel, cs =>
    match skipWs cs with
    | [] => none
    | c :: rest =>
      if c == 'n' then
        match rest with
        | 'u' :: 'l' :: 'l' :: r => some (JsValue.null, r)
        | _ => none
      else if c == 't' then
        match rest with
        | 'r' :: 'u' :: 'e' :: r => some (JsValue.boolean true, r)
        | _ => none
      else if c == 'f' then
        match rest with
        | 'a' :: 'l' :: 's' :: 'e' :: r => some (JsValue.boolean false, r)
        | _ => none
      else if c == Char.ofNat 34 then
        match parseStrChars [] rest with
        | some (s, r) => some (JsValue.string s, r)
        | none => none
      else if c == '[' then
        match skipWs rest with
        | c2 :: r2 =>
          if c2 == ']' then some (JsValue.array [], r2)
          else parseArrayItems fuel (c2 :: r2) []
        | [] => none
      else if c == Char.ofNat 123 then
        match skipWs rest with
        | c2 :: r2 =>
          if c2 == Char.ofNat 125 then some (JsValue.object [], r2)
          else parseObjItems fuel (c2 :: r2) []
        | [] => none
      else
        match parseNumberChars (c :: rest) with
        | some (n, r) => some (JsValue.number n, r)
        | none => none

def parseArrayItems : Nat → List Char → List JsValue → Option (JsValue × List Char)
  | 0, _, _ => none
  | Nat.succ fuel, cs, acc =>
    match parseVal fuel cs with
    | none => none
    | some (v, r) =>
      match skipWs r with
      | c :: r2 =>
        if c == ',' then parseArrayItems fuel r2 (v :: acc)
        else if c == ']' then some (JsValue.array (v :: acc).reverse, r2)
        else none
      | [] => none

def parseObjItems : Nat → List Char → List (String × JsValue) → Option (JsValue × List Char)
  | 0, _, _ => none
  | Nat.succ fuel, cs, acc =>
    match skipWs cs with
    | c :: rest =>
      if c == Char.ofNat 34 then
        match parseStrChars [] rest with
        | some (k, r) =>
          match skipWs r with
          | c2 :: r2 =>
            if c2 == ':' then
              match parseVal fuel r2 with
              | some (v, r3) =>
                match skipWs r3 with
                | c3 :: r4 =>
                  if c3 == ',' then parseObjItems fuel r4 ((k, v) :: acc)
                  else if c3 == Char.ofNat 125 then
                    some (JsValue.object ((k, v) :: acc).reverse, r4)
                  else none
                | [] => none
              | none => none
            else none
          | [] => none
        | none => none
      else none
    | [] => none

end

def jsonParse (s : String) : Option JsValue :=
  match parseVal (2 * s.length + 4) s.toList with
  | some (v, r) => if skipWs r == [] then some v else none
  | none => none

/-! ## Node path functions

The pieces of the Node `path` module the source uses:
`path.basename(p)`, `path.extname(p)` and `path.basename(p, ext)`,
modelled for POSIX paths. -/

/-- Split a character list at the first dot: the prefix before it and
the remainder starting with the dot (if any). -/
def spanNeqDot : List Char → List Char × List Char
  | [] => ([], [])
  | c :: cs =>
    if c = '.' then ([], c :: cs)
    else
      let r := spanNeqDot cs
      (c :: r.1, r.2)

/-- The part of a path after its last slash (`path.basename(p)`). -/
def basenameChars (cs : List Char) : List Char :=
  (cs.reverse.takeWhile (fun c => c != '/')).reverse

/-- `path.extname` applied to a basename: from the last dot to the end,
empty when there is no dot or when the only dot starts the name. -/
def extnameChars (b : List Char) : List Char :=
  match spanNeqDot b.reverse with
  | (_, []) => []
  | (pre, _ :: rest) => if rest = [] then [] else '.' :: pre.reverse

/-- Whether `ext` is a suffix of `b` (the ends-with test of
`path.basename(p, ext)`). -/
def endsWithL (ext b : List Char) : Bool :=
  b.reverse.take ext.length == ext.reverse

/-- `path.basename(p, ext)` on the basename `b`: strips `ext` when it is
a nonempty proper suffix. -/
def basename2Chars (b ext : List Char) : List Char :=
  if ext ≠ [] ∧ ext.length < b.length ∧ endsWithL ext b = true then
    b.take (b.length - ext.length)
  else b

def pathBasename (p : String) : String :=
  String.mk (basenameChars p.toList)

def pathExtname (p : String) : String :=
  String.mk (extnameChars (basenameChars p.toList))

def pathBasename2 (p ext : String) : String :=
  String.mk (basename2Chars (basenameChars p.toList) ext.toList)

/-- `path.dirname(p)`: everything before the last slash. -/
def pathDirname (p : String) : String :=
  let cs := p.toList
  let b := basenameChars cs
  if b.length = cs.length then "."
  else
    let d := cs.take (cs.length - b.length - 1)
    if d = [] then "/" else String.mk d

/-- Lines 172-178 of src/src/lambdalocal.ts: the staged `_HANDLER`
value, `path.basename(lambdaPath, path.extname(lambdaPath)) + "." +
lambdaHandler` when a path is given and `"index." + lambdaHandler`
otherwise. -/
def handlerIdentifier (lambdaPath : Option String) (h : String) : String :=
  match lambdaPath with
  | some p => pathBasename2 p (pathExtname p) ++ "." ++ h
  | none => "index." ++ h

/-! ## The execution engine (`_executeSync`)

The host-dependent inputs of `_executeSync` (free memory, runtime
version, timezone, working directory, path resolution) are passed in as
a `Host` record; what the credential files would stage and what
`require(lambdaPath)` would produce are passed in as parameters, since
file-system contents are outside the program. -/

structure Host where
  freemem : Nat
  nodeVersion : String
  nodeMajor : Nat
  timeZone : String
  cwd : String
  resolve : String → String

/-- The handler event option: a plain value or a zero-argument producer
(which may itself throw when invoked). -/
inductive EventInput where
  | val (v : JsValue)
  | producer (res : Except JsValue JsValue)

/-- The fields of the options object that `_executeSync` reads. -/
structure Opts where
  event : Option EventInput
  lambdaFunc : Option HandlerRun
  lambdaPath : Option String
  lambdaHandler : Option String
  clientContext : JsValue
  region : Option String
  environment : Option (List (String × String))

/-- The two fail-fast error kinds of the validation prelude. -/
inductive ExecError where
  | parseError
  | configError

/-- Lines 129-139: the clientContext prelude.  A truthy string is parsed
with `JSON.parse` (throwing the ParseError on failure); a truthy
non-string is used as is; a falsy value leaves the context `null`. -/
def resolveClientContext (cc : JsValue) : Except ExecError JsValue :=
  if cc.truthy then
    match cc with
    | .string s =>
      match jsonParse s with
      | some v => .ok v
      | none => .error .parseError
    | v => .ok v
  else .ok .null

/-- JS truthiness of the `lambdaPath` option (an empty path is falsy). -/
def truthyPath : Option String → Bool
  | some p => p != ""
  | none => false

/-- Lines 172-178: the `LAMBDA_TASK_ROOT` value. -/
def taskRootVal (host : Host) (pathAbs : Option String) : String :=
  match pathAbs with
  | some p => if p != "" then pathDirname p else host.cwd
  | none => host.cwd

/-- The path argument used to derive `_HANDLER` (a falsy path behaves
like no path). -/
def handlerPathArg (pathAbs : Option String) : Option String :=
  match pathAbs with
  | some p => if p != "" then some p else none
  | none => none

/-- Lines 156-178: the default environment dictionary, in insertion
order. -/
def envVarsList (host : Host) (pathAbs : Option String) (handlerName : String) :
    List (String × String) :=
  [ ("AWS_LAMBDA_FUNCTION_NAME", handlerName),
    ("AWS_LAMBDA_FUNCTION_MEMORY_SIZE", toString (host.freemem / 1048576)),
    ("AWS_LAMBDA_FUNCTION_VERSION", "1.0"),
    ("AWS_EXECUTION_ENV", "AWS_Lambda_nodejs" ++ host.nodeVersion.drop 1),
    ("LAMBDA_CONSOLE_SOCKET", "14"),
    ("LAMBDA_CONTROL_SOCKET", "11"),
    ("LAMBDA_RUNTIME_DIR", host.cwd),
    ("NODE_PATH", host.resolve "node_modules"),
    ("TZ", host.timeZone),
    ("LAMBDA_TASK_ROOT", taskRootVal host pathAbs),
    ("_HANDLER", handlerIdentifier (handlerPathArg pathAbs) handlerName) ]

/-- Lines 156-212: environment staging.  Defaults via `updateEnv`, then
the caller's custom environment as overrides, then (modelled from the
spec, `lib/utils.js` not being under src/) the credential files staging
their keys as defaults, then the two region lines 211-212. -/
def stagePreRegion (host : Host) (cred : List (String × String)) (pathAbs : Option String)
    (handlerName : String) (environment : Option (List (String × String))) (e : Env) : Env :=
  let e1 := updateEnv (envVarsList host pathAbs handlerName) e
  let e2 :=
    match environment with
    | some m => applyOverrides m e1
    | none => e1
  updateEnv cred e2

def stageEnv (host : Host) (cred : List (String × String)) (pathAbs : Option String)
    (handlerName : String) (environment : Option (List (String × String)))
    (region : Option String) (e : Env) : Env :=
  let e3 := stagePreRegion host cred pathAbs handlerName environment e
  let r1 := jsOrStr region (jsOrStr (envGet e3 "AWS_REGION") "us-east-1")
  let e4 : Env := ("AWS_REGION", r1) :: e3
  let r2 := jsOrStr region (jsOrStr (envGet e4 "AWS_DEFAULT_REGION") "us-east-1")
  ("AWS_DEFAULT_REGION", r2) :: e4

/-- Whether the event option is a producer that throws when invoked
(line 250-252 runs inside the try block). -/
def eventThrows : Option EventInput → Bool
  | some (.producer (.error _)) => true
  | _ => false

/-- Lines 241-268 once a handler function is at hand: resolve the event
(a throwing producer is caught and routed to fail), then run the
handler body. -/
def runPhase (f : HandlerRun) (ev : Option EventInput) : Context :=
  match ev with
  | some (.producer (.error err)) => Context.complete Context.pending (.error err)
  | _ => runInvocation Context.pending f

/-- The observable outcome of `_executeSync`: the fail-fast error or the
final context, the process environment afterwards, and whether a module
load was attempted. -/
structure ExecOutcome where
  result : Except ExecError Context
  envAfter : Env
  moduleLoaded : Bool

/-- The `_executeSync` path of src/src/lambdalocal.ts (lines 112-268):
clientContext prelude, the mutually-exclusive-options check, environment
staging, then the guarded try block that loads the module when no
in-memory handler was given and invokes the handler; every error past
validation is routed into the context, never thrown. -/
def executeSyncModel (host : Host) (cred : List (String × String))
    (loadResult : Except JsValue HandlerRun) (o : Opts) (e : Env) : ExecOutcome :=
  match resolveClientContext o.clientContext with
  | .error err => ⟨.error err, e, false⟩
  | .ok _ =>
    if o.lambdaFunc.isSome && truthyPath o.lambdaPath then ⟨.error .configError, e, false⟩
    else
      let handlerName := jsOrStr o.lambdaHandler "handler"
      let pathAbs : Option String :=
        match o.lambdaPath with
        | some p => if p != "" then some (host.resolve p) else some p
        | none => none
      let e2 := stageEnv host cred pathAbs handlerName o.environment o.region e
      match o.lambdaFunc with
      | some f => ⟨.ok (runPhase f o.event), e2, false⟩
      | none =>
        match loadResult with
        | .error err => ⟨.ok (Context.complete Context.pending (.error err)), e2, true⟩
        | .ok f => ⟨.ok (runPhase f o.event), e2, true⟩

/-! ## The `execute` entry point (direct API)

For the future-style path the options object is modelled at the JS
object level, so that the copy-before-wiring discipline of lines 36-52
is visible: `Object.assign({}, opts)` copies the fields into a fresh
object and the completion callback is installed on the copy only. -/

def JsObj := List (String × JsValue)

def objectGet (o : JsObj) (k : String) : JsValue :=
  match jsLookup o k with
  | some v => v
  | none => .undefined

/-- JS property assignment `o[k] = v` (lookup-first association). -/
def objectSet (o : JsObj) (k : String) (v : JsValue) : JsObj :=
  (k, v) :: o

/-- `Object.assign({}, o)`: a fresh object with the same fields. -/
def objectAssignEmpty (o : JsObj) : JsObj := o

/-- How `execute` dispatches: with a truthy callback it runs
`_executeSync` on the caller's own object; otherwise it returns a
promise after copying the options and installing the resolving callback
on the copy.  The second field of `futurePath` is the caller's object
as it stands after the wiring. -/
inductive ExecuteDispatch where
  | syncPath (passed : JsObj)
  | futurePath (passed : JsObj) (callerAfter : JsObj)

/-- Lines 36-52 of src/src/lambdalocal.ts. -/
def executeModel (opts : JsObj) : ExecuteDispatch :=
  if (objectGet opts "callback").truthy then .syncPath opts
  else
    let copy := objectAssignEmpty opts
    let withCb := objectSet copy "callback" JsValue.func
    .futurePath withCb opts

/-! ## Watch mode (`watch` and `_getRequestPayload`)

One HTTP request is reduced to the list of effects its handling
produces: `res.end` calls (status code plus the value that gets
stringified) and exceptions that escape the per-request handlers.
The invocation itself is abstracted by a `run` function giving the
settled outcome of `execute` for an event. -/

structure Request where
  method : String
  host : String
  url : String
  contentType : Option String
  body : String

inductive ReqEffect where
  | response (statusCode : Nat) (body : JsValue)
  | uncaught (err : JsValue)

def headerErrMsg : String := "Invalid header Content-Type (Expected application/json)"

def invalidBodyMsg : String := "Invalid body (Expected \"event\" property)"

/-- Lines 92-98 of src/src/lambdalocal.ts, the `end` listener of
`_getRequestPayload` on an already-parsed body: the list of
`(error, result)` argument pairs the continuation is invoked with.
A missing guard return means a falsy `event` produces the error call
and then the `(null, payload.event)` call.  Reading `.event` off a
parsed `null` throws instead. -/
def getRequestPayloadEnd (payload : JsValue) :
    Except JsValue (List (JsValue × JsValue)) :=
  match payload with
  | .null => .error (.string "TypeError: Cannot read properties of null")
  | _ =>
    let ev := payload.getField "event"
    .ok ((if ev.truthy then [] else [(.string invalidBodyMsg, .undefined)]) ++ [(.null, ev)])

/-- The per-request invocation (lines 70-73): `execute` with this
event, a 200 `data` response on success, a 500 `error` response when the
promise rejects. -/
def invokeEffect (run : JsValue → Except JsValue JsValue) (ev : JsValue) : ReqEffect :=
  match run ev with
  | .ok v => .response 200 (.object [("data", v)])
  | .error e => .response 500 (.object [("error", e)])

/-- One invocation of the payload continuation (lines 67-77): a truthy
error goes to `handle_error` (status 500, `error` body), otherwise the
invocation runs with the result as the event. -/
def watchCallbackStep (run : JsValue → Except JsValue JsValue) (err res : JsValue) :
    ReqEffect :=
  if err.truthy then .response 500 (.object [("error", err)])
  else invokeEffect run res

/-- Lines 58-81: handling of one request.  A content-type header other
than exactly `application/json` is thrown and caught by `handle_error`
(status 500, the message in the `error` field); otherwise the body is
parsed and the payload continuation is driven.  A body `JSON.parse`
cannot parse throws inside the `end` listener, outside the try. -/
def handleRequest (run : JsValue → Except JsValue JsValue) (req : Request) :
    List ReqEffect :=
  if req.contentType ≠ some "application/json" then
    [.response 500 (.object [("error", .string headerErrMsg)])]
  else
    match jsonParse req.body with
    | none => [.uncaught (.string "SyntaxError: Unexpected token in JSON")]
    | some payload =>
      match getRequestPayloadEnd payload with
      | .error e => [.uncaught e]
      | .ok calls => calls.map (fun ec => watchCallbackStep run ec.1 ec.2)

/-- The listener started by `watch`: each incoming request is handled
independently by the same request handler; no request terminates the
listener. -/
def serveAll (run : JsValue → Except JsValue JsValue) (reqs : List Request) :
    List (List ReqEffect) :=
  reqs.map (handleRequest run)

/-! ## Spec-side formulations

Definitions that follow the specification's words, for comparison with
the code-derived definitions above. -/

/-- Spec formulation of the handler-identifier stem: the file name part
of the path with its extension removed, that is everything before the
last dot of the basename unless there is no dot or the only dot starts
the name. -/
def specStemChars (b : List Char) : List Char :=
  match spanNeqDot b.reverse with
  | (_, []) => b
  | (_, _ :: rest) => if rest = [] then b else rest.reverse

/-- Spec formulation: `basename(P, without-extension)`. -/
def specBasenameNoExt (p : String) : String :=
  String.mk (specStemChars (basenameChars p.toList))

/-- A concrete host used by closed statements. -/
def sampleHost : Host := ⟨0, "v18.0.0", 18, "UTC", "/", fun s => s⟩

/-! ## Helper lemmas -/

theorem complete_of_completed (c : Context) (out : Except JsValue JsValue)
    (h : c.completion.isSome = true) : c.complete out = c := by
  cases c with
  | mk comp fin =>
    cases comp with
    | none => simp at h
    | some o => rfl

theorem runCalls_of_completed (calls : List CompletionCall) (c : Context)
    (h : c.completion.isSome = true) : runCalls c calls = c := by
  induction calls generalizing c with
  | nil => rfl
  | cons x xs ih =>
    show runCalls (c.complete (outcomeOf x)) xs = c
    rw [complete_of_completed c (outcomeOf x) h]
    exact ih c h

theorem envGet_cons_eq (k v : String) (e : Env) : envGet ((k, v) :: e) k = some v := by
  simp [envGet]

theorem envGet_cons_ne (k1 v k : String) (e : Env) (h : k1 ≠ k) :
    envGet ((k1, v) :: e) k = envGet e k := by
  simp [envGet, h]

theorem updateEnv_cons (kv : String × String) (vs : List (String × String)) (e : Env) :
    updateEnv (kv :: vs) e
      = updateEnv vs (if envTruthy e kv.1 then e else (kv.1, kv.2) :: e) := rfl

theorem updateEnv_preserved (vars : List (String × String)) (e : Env) (k : String)
    (h : k ∉ vars.map Prod.fst) : envGet (updateEnv vars e) k = envGet e k := by
  induction vars generalizing e with
  | nil => rfl
  | cons kv vs ih =>
    have hk : kv.1 ≠ k := by
      intro he
      exact h (by simp [he])
    have hvs : k ∉ vs.map Prod.fst := by
      intro hm
      exact h (by simp [hm])
    rw [updateEnv_cons]
    by_cases ht : envTruthy e kv.1 = true
    · rw [if_pos ht]
      exact ih e hvs
    · rw [if_neg ht]
      rw [ih _ hvs]
      exact envGet_cons_ne kv.1 kv.2 k e hk

theorem applyOverrides_cons (kv : String × String) (vs : List (String × String)) (e : Env) :
    applyOverrides (kv :: vs) e = applyOverrides vs ((kv.1, kv.2) :: e) := rfl

theorem applyOverrides_preserved (vars : List (String × String)) (e : Env) (k : String)
    (h : k ∉ vars.map Prod.fst) : envGet (applyOverrides vars e) k = envGet e k := by
  induction vars generalizing e with
  | nil => rfl
  | cons kv vs ih =>
    have hk : kv.1 ≠ k := by
      intro he
      exact h (by simp [he])
    have hvs : k ∉ vs.map Prod.fst := by
      intro hm
      exact h (by simp [hm])
    rw [applyOverrides_cons, ih _ hvs]
    exact envGet_cons_ne kv.1 kv.2 k e hk

theorem spanNeqDot_append (l : List Char) : (spanNeqDot l).1 ++ (spanNeqDot l).2 = l := by
  induction l with
  | nil => rfl
  | cons c cs ih =>
    by_cases h : c = '.'
    · simp [spanNeqDot, h]
    · simp [spanNeqDot, h, ih]

theorem spanNeqDot_snd_head (l : List Char) :
    (spanNeqDot l).2 = [] ∨ ∃ rest, (spanNeqDot l).2 = '.' :: rest := by
  induction l with
  | nil => exact Or.inl rfl
  | cons c cs ih =>
    by_cases h : c = '.'
    · exact Or.inr ⟨cs, by simp [spanNeqDot, h]⟩
    · simpa [spanNeqDot, h] using ih

/-- The code's suffix-stripping `basename(p, extname(p))` computes the
spec's basename-without-extension. -/
theorem basename2_extname_eq_specStem (b : List Char) :
    basename2Chars b (extnameChars b) = specStemChars b := by
  have hsplit := spanNeqDot_append b.reverse
  have hhead := spanNeqDot_snd_head b.reverse
  rcases hs : spanNeqDot b.reverse with ⟨pre, tl⟩
  rw [hs] at hsplit hhead
  simp only at hsplit hhead
  cases tl with
  | nil =>
    unfold basename2Chars extnameChars specStemChars
    rw [hs]
    simp
  | cons d rest =>
    have hd : d = '.' := by
      rcases hhead with h1 | ⟨r, h2⟩
      · exact absurd h1 (List.cons_ne_nil d rest)
      · injection h2
    subst hd
    by_cases hrest : rest = []
    · subst hrest
      unfold basename2Chars extnameChars specStemChars
      rw [hs]
      simp
    · have hb : b = rest.reverse ++ ('.' :: pre.reverse) := by
        calc b = (b.reverse).reverse := (List.reverse_reverse b).symm
        _ = (pre ++ '.' :: rest).reverse := by rw [hsplit]
        _ = ('.' :: rest).reverse ++ pre.reverse := List.reverse_append _ _
        _ = (rest.reverse ++ ['.']) ++ pre.reverse := by rw [List.reverse_cons]
        _ = rest.reverse ++ ('.' :: pre.reverse) := by rw [List.append_assoc]; rfl
      have hext : extnameChars b = '.' :: pre.reverse := by
        unfold extnameChars
        rw [hs]
        simp [hrest]
      have hspec : specStemChars b = rest.reverse := by
        unfold specStemChars
        rw [hs]
        simp [hrest]
      rw [hext, hspec]
      have hne : ('.' :: pre.reverse) ≠ ([] : List Char) := List.cons_ne_nil _ _
      have hrl : 0 < rest.length := List.length_pos.mpr hrest
      have hlen : ('.' :: pre.reverse).length < b.length := by
        rw [hb]
        simp
        omega
      have hends : endsWithL ('.' :: pre.reverse) b = true := by
        have h1 : ('.' :: pre.reverse).reverse = pre ++ ['.'] := by
          rw [List.reverse_cons, List.reverse_reverse]
        have h2 : b.reverse = (pre ++ ['.']) ++ rest := by
          rw [← hsplit, List.append_cons]
        unfold endsWithL
        rw [h2, h1]
        have h3 : ('.' :: pre.reverse).length = (pre ++ ['.']).length := by simp
        rw [h3, List.take_left]
        exact beq_self_eq_true _
      unfold basename2Chars
      rw [if_pos ⟨hne, hlen, hends⟩]
      rw [hb]
      have h4 : (rest.reverse ++ ('.' :: pre.reverse)).length - ('.' :: pre.reverse).length
          = rest.reverse.length := by simp
      rw [h4, List.take_left]

theorem envVarsList_keys (host : Host) (pathAbs : Option String) (handlerName : String) :
    (envVarsList host pathAbs handlerName).map Prod.fst
      = ["AWS_LAMBDA_FUNCTION_NAME", "AWS_LAMBDA_FUNCTION_MEMORY_SIZE",
         "AWS_LAMBDA_FUNCTION_VERSION", "AWS_EXECUTION_ENV", "LAMBDA_CONSOLE_SOCKET",
         "LAMBDA_CONTROL_SOCKET", "LAMBDA_RUNTIME_DIR", "NODE_PATH", "TZ",
         "LAMBDA_TASK_ROOT", "_HANDLER"] := rfl

theorem stageEnv_region_values (host : Host) (cred : List (String × String))
    (pathAbs : Option String) (handlerName : String)
    (environment : Option (List (String × String))) (region : Option String) (e : Env)
    (henv1 : "AWS_REGION" ∉ (environment.getD []).map Prod.fst)
    (henv2 : "AWS_DEFAULT_REGION" ∉ (environment.getD []).map Prod.fst)
    (hcred1 : "AWS_REGION" ∉ cred.map Prod.fst)
    (hcred2 : "AWS_DEFAULT_REGION" ∉ cred.map Prod.fst) :
    envGet (stageEnv host cred pathAbs handlerName environment region e) "AWS_REGION"
      = some (jsOrStr region (jsOrStr (envGet e "AWS_REGION") "us-east-1"))
    ∧ envGet (stageEnv host cred pathAbs handlerName environment region e) "AWS_DEFAULT_REGION"
      = some (jsOrStr region (jsOrStr (envGet e "AWS_DEFAULT_REGION") "us-east-1")) := by
  have hpres : ∀ k, k ∉ (environment.getD []).map Prod.fst →
      k ∉ cred.map Prod.fst →
      k ∉ (envVarsList host pathAbs handlerName).map Prod.fst →
      envGet (stagePreRegion host cred pathAbs handlerName environment e) k
        = envGet e k := by
    intro k hk1 hk2 hk3
    unfold stagePreRegion
    rw [updateEnv_preserved cred _ k hk2]
    cases environment with
    | none => exact updateEnv_preserved _ e k hk3
    | some m =>
      show envGet (applyOverrides m _) k = _
      rw [applyOverrides_preserved m _ k hk1]
      exact updateEnv_preserved _ e k hk3
  have hr := hpres "AWS_REGION" henv1 hcred1 (by rw [envVarsList_keys]; decide)
  have hd := hpres "AWS_DEFAULT_REGION" henv2 hcred2 (by rw [envVarsList_keys]; decide)
  simp only [stageEnv]
  constructor
  · rw [envGet_cons_ne _ _ _ _ (by decide), envGet_cons_eq, hr]
  · rw [envGet_cons_eq, envGet_cons_ne _ _ _ _ (by decide), hd]

/-! ## Claim theorems -/

/-- C1: for every invocation, the completion state moves from Pending to
exactly one Completed value: among the competing completion paths the
first call determines the recorded outcome, the finalization hook runs
exactly once, and any completion call on an already-completed context is
a no-op. -/
theorem completion_first_call_wins (first : CompletionCall) (rest : List CompletionCall) :
    (runCalls Context.pending (first :: rest)).completion = some (outcomeOf first)
    ∧ (runCalls Context.pending (first :: rest)).finalizedCount = 1
    ∧ ∀ (c : Context) (out : Except JsValue JsValue),
        c.completion.isSome = true → c.complete out = c := by
  have hstep : runCalls Context.pending (first :: rest)
      = Context.mk (some (outcomeOf first)) 1 := by
    show runCalls (Context.pending.complete (outcomeOf first)) rest = _
    have h1 : Context.pending.complete (outcomeOf first)
        = Context.mk (some (outcomeOf first)) 1 := rfl
    rw [h1]
    exact runCalls_of_completed rest _ rfl
  exact ⟨by rw [hstep], by rw [hstep], fun c out h => complete_of_completed c out h⟩

/-- C1 witness: a success call followed by a late fail call ends with the
success outcome, and a completion call against a completed context is the
identity. -/
theorem completion_first_call_wins_witness :
    (runCalls Context.pending
        [CompletionCall.succeed JsValue.null,
         CompletionCall.fail (JsValue.string "late")]).completion
      = some (Except.ok JsValue.null)
    ∧ (Context.mk (some (Except.ok JsValue.null)) 1).complete
        (Except.error (JsValue.string "late"))
      = Context.mk (some (Except.ok JsValue.null)) 1 := by
  have h := completion_first_call_wins (CompletionCall.succeed JsValue.null)
    [CompletionCall.fail (JsValue.string "late")]
  exact ⟨h.1, h.2.2 _ _ rfl⟩

/-- C2 counterexample: a handler body returning the plain falsy value 0
leaves the invocation Pending; it is not completed as a success with a
null payload, contrary to the claim that falsy returns are included. -/
theorem plain_falsy_return_counterexample :
    (handleResult Context.pending (JsValue.number 0)).completion = none
    ∧ (handleResult Context.pending (JsValue.number 0)).completion
        ≠ some (Except.ok JsValue.null) :=
  ⟨rfl, fun h => nomatch h⟩

/-- C2 (amended): for every handler whose body returns a truthy value
with no thenable semantics, the invocation is completed immediately as a
success with a null payload; a falsy plain return leaves the invocation
uncompleted. -/
theorem plain_truthy_return_succeeds_null (r : JsValue)
    (h1 : r.truthy = true) (h2 : hasTruthyThen r = false) :
    handleResult Context.pending r = Context.mk (some (Except.ok JsValue.null)) 1
    ∧ ∀ r2 : JsValue, r2.truthy = false → handleResult Context.pending r2 = Context.pending := by
  constructor
  · unfold handleResult
    rw [h1, h2]
    rfl
  · intro r2 hr2
    unfold handleResult
    rw [hr2]
    rfl

/-- C2 witness: the truthy non-thenable return "x" completes with
success null, and the falsy return false completes nothing. -/
theorem plain_truthy_return_succeeds_null_witness :
    handleResult Context.pending (JsValue.string "x")
      = Context.mk (some (Except.ok JsValue.null)) 1
    ∧ handleResult Context.pending (JsValue.boolean false) = Context.pending := by
  have h := plain_truthy_return_succeeds_null (JsValue.string "x") (by decide) (by decide)
  exact ⟨h.1, h.2 (JsValue.boolean false) (by decide)⟩

/-- C10: default environment staging treats a falsy current value as
unset: a default key whose process-environment value is the empty string
is overwritten with the computed default. -/
theorem updateEnv_overwrites_empty (vars : List (String × String)) (e : Env)
    (k v : String) (hnd : (vars.map Prod.fst).Nodup)
    (hl : envGet vars k = some v) (he : envGet e k = some "") :
    envGet (updateEnv vars e) k = some v := by
  induction vars generalizing e with
  | nil => exact absurd hl (by simp [envGet])
  | cons kv vs ih =>
    rcases kv with ⟨k1, v1⟩
    by_cases hk : k1 = k
    · subst hk
      have hv : v1 = v := by
        have := hl
        rw [envGet_cons_eq] at this
        exact Option.some.inj this
      subst hv
      have hnotin : k1 ∉ vs.map Prod.fst := by
        rw [List.map_cons, List.nodup_cons] at hnd
        exact hnd.1
      have ht : envTruthy e k1 = false := by
        unfold envTruthy
        rw [he]
        rfl
      rw [updateEnv_cons]
      simp only [ht, Bool.false_eq_true, if_false]
      rw [updateEnv_preserved vs _ k1 hnotin]
      exact envGet_cons_eq k1 v1 e
    · have hl2 : envGet vs k = some v := by
        have := hl
        rw [envGet_cons_ne k1 v1 k vs hk] at this
        exact this
      have hnd2 : (vs.map Prod.fst).Nodup := by
        rw [List.map_cons, List.nodup_cons] at hnd
        exact hnd.2
      rw [updateEnv_cons]
      by_cases ht : envTruthy e k1 = true
      · rw [if_pos ht]
        exact ih e hnd2 hl2 he
      · rw [if_neg ht]
        exact ih _ hnd2 hl2 (by rw [envGet_cons_ne k1 v1 k e hk]; exact he)

/-- C10 witness: a TZ value staged over an empty-string TZ entry
overwrites it. -/
theorem updateEnv_overwrites_empty_witness :
    envGet (updateEnv [("TZ", "UTC")] [("TZ", "")]) "TZ" = some "UTC" :=
  updateEnv_overwrites_empty [("TZ", "UTC")] [("TZ", "")] "TZ" "UTC"
    (by simp) rfl rfl

/-- C7: called without a truthy callback, execute takes the future path:
the options are copied, the resolving callback is installed on the copy
(equal to the caller's object on every other field), and the caller's
object is left as it was. -/
theorem execute_future_copies_options (opts : JsObj)
    (h : (objectGet opts "callback").truthy = false) :
    ∃ p, executeModel opts = ExecuteDispatch.futurePath p opts
      ∧ objectGet p "callback" = JsValue.func
      ∧ ∀ k, k ≠ "callback" → objectGet p k = objectGet opts k := by
  refine ⟨objectSet (objectAssignEmpty opts) "callback" JsValue.func, ?_, ?_, ?_⟩
  · unfold executeModel
    rw [h]
    rfl
  · simp [objectSet, objectAssignEmpty, objectGet, jsLookup]
  · intro k hk
    simp [objectSet, objectAssignEmpty, objectGet, jsLookup, Ne.symm hk]

/-- C7 witness: a callback-less options object takes the future path
with its lambdaPath field intact on the copy. -/
theorem execute_future_copies_options_witness :
    ∃ p, executeModel [("lambdaPath", JsValue.string "/x.js")]
        = ExecuteDispatch.futurePath p [("lambdaPath", JsValue.string "/x.js")]
      ∧ objectGet p "callback" = JsValue.func
      ∧ ∀ k, k ≠ "callback" →
          objectGet p k = objectGet [("lambdaPath", JsValue.string "/x.js")] k :=
  execute_future_copies_options [("lambdaPath", JsValue.string "/x.js")] (by decide)

/-- C9 counterexample: for the parsed body with the present-but-falsy
event 0, the second continuation call carries (null, 0), not
(null, undefined). -/
theorem payload_second_call_counterexample :
    getRequestPayloadEnd (JsValue.object [("event", JsValue.number 0)])
      = Except.ok [(JsValue.string invalidBodyMsg, JsValue.undefined),
                   (JsValue.null, JsValue.number 0)]
    ∧ JsValue.number 0 ≠ JsValue.undefined :=
  ⟨rfl, fun h => nomatch h⟩

/-- C9 (amended): for every parsed object body whose event property is
falsy, the continuation is invoked twice — first with the Invalid body
error and then with (null, payload.event), the falsy event value itself
(undefined exactly when the property is absent) — so after the 500
response an invocation is still attempted with that falsy event. -/
theorem payload_falsy_event_double_call (fs : List (String × JsValue))
    (run : JsValue → Except JsValue JsValue)
    (h : ((JsValue.object fs).getField "event").truthy = false) :
    getRequestPayloadEnd (JsValue.object fs)
      = Except.ok [(JsValue.string invalidBodyMsg, JsValue.undefined),
                   (JsValue.null, (JsValue.object fs).getField "event")]
    ∧ (getRequestPayloadEnd (JsValue.object fs)).map
        (fun calls => calls.map (fun ec => watchCallbackStep run ec.1 ec.2))
      = Except.ok [ReqEffect.response 500
                     (JsValue.object [("error", JsValue.string invalidBodyMsg)]),
                   invokeEffect run ((JsValue.object fs).getField "event")] := by
  have h1 : getRequestPayloadEnd (JsValue.object fs)
      = Except.ok [(JsValue.string invalidBodyMsg, JsValue.undefined),
                   (JsValue.null, (JsValue.object fs).getField "event")] := by
    show Except.ok
        ((if ((JsValue.object fs).getField "event").truthy = true then []
          else [(JsValue.string invalidBodyMsg, JsValue.undefined)])
          ++ [(JsValue.null, (JsValue.object fs).getField "event")]) = _
    rw [h]
    rfl
  refine ⟨h1, ?_⟩
  rw [h1]
  rfl

/-- C9 witness: a body with no event property produces the error call
and then an invocation with the undefined event. -/
theorem payload_falsy_event_double_call_witness :
    getRequestPayloadEnd (JsValue.object [])
      = Except.ok [(JsValue.string invalidBodyMsg, JsValue.undefined),
                   (JsValue.null, (JsValue.object []).getField "event")]
    ∧ (getRequestPayloadEnd (JsValue.object [])).map
        (fun calls => calls.map (fun ec =>
          watchCallbackStep (fun _ => Except.ok JsValue.null) ec.1 ec.2))
      = Except.ok [ReqEffect.response 500
                     (JsValue.object [("error", JsValue.string invalidBodyMsg)]),
                   invokeEffect (fun _ => Except.ok JsValue.null)
                     ((JsValue.object []).getField "event")] :=
  payload_falsy_event_double_call [] (fun _ => Except.ok JsValue.null) (by decide)

/-- C6: a request whose content-type header is not exactly
application/json gets a single 500 response whose error message
references the required header, and the listener goes on handling the
remaining requests. -/
theorem bad_content_type_500 (run : JsValue → Except JsValue JsValue)
    (req : Request) (rest : List Request)
    (h : req.contentType ≠ some "application/json") :
    handleRequest run req
      = [ReqEffect.response 500 (JsValue.object [("error", JsValue.string headerErrMsg)])]
    ∧ (∃ a b, headerErrMsg = a ++ "Content-Type" ++ b)
    ∧ (∃ a b, headerErrMsg = a ++ "application/json" ++ b)
    ∧ serveAll run (req :: rest) = handleRequest run req :: serveAll run rest := by
  refine ⟨?_, ⟨"Invalid header ", " (Expected application/json)", by decide⟩,
    ⟨"Invalid header Content-Type (Expected ", ")", by decide⟩, rfl⟩
  unfold handleRequest
  rw [if_pos h]

/-- C6 witness: a request with no content-type header yields exactly the
500 header-error response and the following request is still served. -/
theorem bad_content_type_500_witness :
    handleRequest (fun _ => Except.ok JsValue.null) ⟨"GET", "localhost", "/", none, ""⟩
      = [ReqEffect.response 500 (JsValue.object [("error", JsValue.string headerErrMsg)])]
    ∧ serveAll (fun _ => Except.ok JsValue.null)
        [⟨"GET", "localhost", "/", none, ""⟩, ⟨"GET", "localhost", "/", none, ""⟩]
      = handleRequest (fun _ => Except.ok JsValue.null) ⟨"GET", "localhost", "/", none, ""⟩
        :: serveAll (fun _ => Except.ok JsValue.null) [⟨"GET", "localhost", "/", none, ""⟩] := by
  have h := bad_content_type_500 (fun _ => Except.ok JsValue.null)
    ⟨"GET", "localhost", "/", none, ""⟩ [⟨"GET", "localhost", "/", none, ""⟩] (by simp)
  exact ⟨h.1, h.2.2.2⟩

/-- C5: after staging, each region variable equals the caller-supplied
region when a nonempty one is given, otherwise its pre-existing nonempty
process-environment value, and us-east-1 exactly when neither source
supplies one — so a truthy pre-existing region value is never
overwritten by staging defaults (stated for options whose custom
environment and credential defaults do not bind the region keys). -/
theorem region_resolution (host : Host) (cred : List (String × String))
    (pathAbs : Option String) (handlerName : String)
    (environment : Option (List (String × String))) (region : Option String) (e : Env)
    (henv1 : "AWS_REGION" ∉ (environment.getD []).map Prod.fst)
    (henv2 : "AWS_DEFAULT_REGION" ∉ (environment.getD []).map Prod.fst)
    (hcred1 : "AWS_REGION" ∉ cred.map Prod.fst)
    (hcred2 : "AWS_DEFAULT_REGION" ∉ cred.map Prod.fst) :
    (∀ r, region = some r → r ≠ "" →
      envGet (stageEnv host cred pathAbs handlerName environment region e) "AWS_REGION"
        = some r
      ∧ envGet (stageEnv host cred pathAbs handlerName environment region e)
          "AWS_DEFAULT_REGION" = some r)
    ∧ ((region = none ∨ region = some "") →
      (∀ v, envGet e "AWS_REGION" = some v → v ≠ "" →
        envGet (stageEnv host cred pathAbs handlerName environment region e) "AWS_REGION"
          = some v)
      ∧ (∀ v, envGet e "AWS_DEFAULT_REGION" = some v → v ≠ "" →
        envGet (stageEnv host cred pathAbs handlerName environment region e)
          "AWS_DEFAULT_REGION" = some v)
      ∧ (envTruthy e "AWS_REGION" = false →
        envGet (stageEnv host cred pathAbs handlerName environment region e) "AWS_REGION"
          = some "us-east-1")
      ∧ (envTruthy e "AWS_DEFAULT_REGION" = false →
        envGet (stageEnv host cred pathAbs handlerName environment region e)
          "AWS_DEFAULT_REGION" = some "us-east-1")) := by
  obtain ⟨hr, hd⟩ := stageEnv_region_values host cred pathAbs handlerName environment region e
    henv1 henv2 hcred1 hcred2
  constructor
  · intro r hreq hrne
    subst hreq
    rw [hr, hd]
    constructor <;> simp [jsOrStr, hrne]
  · intro hreg
    have hjs : ∀ d, jsOrStr region d = d := by
      rcases hreg with h | h <;> subst h <;> intro d <;> simp [jsOrStr]
    refine ⟨?_, ?_, ?_, ?_⟩
    · intro v hv hvne
      rw [hr, hjs, hv]
      simp [jsOrStr, hvne]
    · intro v hv hvne
      rw [hd, hjs, hv]
      simp [jsOrStr, hvne]
    · intro hft
      rw [hr, hjs]
      unfold envTruthy at hft
      cases hev : envGet e "AWS_REGION" with
      | none => rfl
      | some v =>
        rw [hev] at hft
        have hv : v = "" := by simpa using hft
        subst hv
        rfl
    · intro hft
      rw [hd, hjs]
      unfold envTruthy at hft
      cases hev : envGet e "AWS_DEFAULT_REGION" with
      | none => rfl
      | some v =>
        rw [hev] at hft
        have hv : v = "" := by simpa using hft
        subst hv
        rfl

/-- C5 witness: a caller-supplied region wins; with no caller region a
pre-existing nonempty value is preserved; with neither, staging yields
us-east-1. -/
theorem region_resolution_witness :
    envGet (stageEnv sampleHost [] none "handler" none (some "eu-central-1") [])
      "AWS_REGION" = some "eu-central-1"
    ∧ envGet (stageEnv sampleHost [] none "handler" none none
        [("AWS_REGION", "eu-west-1")]) "AWS_REGION" = some "eu-west-1"
    ∧ envGet (stageEnv sampleHost [] none "handler" none none [])
        "AWS_DEFAULT_REGION" = some "us-east-1" := by
  refine ⟨?_, ?_, ?_⟩
  · exact ((region_resolution sampleHost [] none "handler" none (some "eu-central-1") []
      (by simp) (by simp) (by simp) (by simp)).1 "eu-central-1" rfl (by decide)).1
  · exact ((region_resolution sampleHost [] none "handler" none none
      [("AWS_REGION", "eu-west-1")]
      (by simp) (by simp) (by simp) (by simp)).2 (Or.inl rfl)).1 "eu-west-1" rfl (by decide)
  · exact ((region_resolution sampleHost [] none "handler" none none []
      (by simp) (by simp) (by simp) (by simp)).2 (Or.inl rfl)).2.2.2 rfl

/-- C3 counterexample: an options value that supplies both lambdaFunc
and lambdaPath together with an invalid stringified clientContext raises
the clientContext ParseError, not the ConfigurationError the claim
promises for every such options value. -/
theorem both_handlers_parse_error_first :
    (executeSyncModel sampleHost []
        (Except.ok ⟨[], HandlerOutcome.returns JsValue.undefined⟩)
        ⟨none, some ⟨[], HandlerOutcome.returns JsValue.undefined⟩,
         some "/tmp/handler.js", none, JsValue.string "\x7b", none, none⟩ []).result
      = Except.error ExecError.parseError
    ∧ ExecError.parseError ≠ ExecError.configError :=
  ⟨rfl, fun h => nomatch h⟩

/-- C3 (amended): for every options value that supplies both an
in-memory handler function and a nonempty file path, and whose
clientContext prelude does not itself raise the ParseError first,
execute raises the ConfigurationError with no side effect: the process
environment is returned unchanged and no handler module load is
attempted (when the clientContext is an unparsable string the ParseError
is raised instead, equally before any side effect). -/
theorem both_handlers_config_error (host : Host) (cred : List (String × String))
    (loadResult : Except JsValue HandlerRun) (o : Opts) (e : Env)
    (hcc : ∃ v, resolveClientContext o.clientContext = Except.ok v)
    (hf : o.lambdaFunc.isSome = true) (hp : truthyPath o.lambdaPath = true) :
    executeSyncModel host cred loadResult o e
      = ⟨Except.error ExecError.configError, e, false⟩
    ∧ ∀ (o2 : Opts), (∃ err, resolveClientContext o2.clientContext = Except.error err) →
        ∃ err, executeSyncModel host cred loadResult o2 e
          = ⟨Except.error err, e, false⟩ := by
  constructor
  · obtain ⟨v, hv⟩ := hcc
    unfold executeSyncModel
    rw [hv]
    simp [hf, hp]
  · intro o2 ⟨err, herr⟩
    refine ⟨err, ?_⟩
    unfold executeSyncModel
    rw [herr]

/-- C3 witness: both handler options supplied with a well-formed
clientContext raise the ConfigurationError, leaving the environment
untouched and the module unloaded; an unparsable clientContext raises
an error equally without side effects. -/
theorem both_handlers_config_error_witness :
    executeSyncModel sampleHost []
        (Except.ok ⟨[], HandlerOutcome.returns JsValue.undefined⟩)
        ⟨none, some ⟨[], HandlerOutcome.returns JsValue.undefined⟩,
         some "/tmp/handler.js", none, JsValue.undefined, none, none⟩ []
      = ⟨Except.error ExecError.configError, [], false⟩
    ∧ ∃ err, executeSyncModel sampleHost []
        (Except.ok ⟨[], HandlerOutcome.returns JsValue.undefined⟩)
        ⟨none, none, none, none, JsValue.string "\x7b", none, none⟩ []
      = ⟨Except.error err, [], false⟩ := by
  have h := both_handlers_config_error sampleHost []
    (Except.ok ⟨[], HandlerOutcome.returns JsValue.undefined⟩)
    ⟨none, some ⟨[], HandlerOutcome.returns JsValue.undefined⟩,
     some "/tmp/handler.js", none, JsValue.undefined, none, none⟩ []
    ⟨JsValue.null, rfl⟩ rfl (by decide)
  exact ⟨h.1, h.2 ⟨none, none, none, none, JsValue.string "\x7b", none, none⟩
    ⟨ExecError.parseError, rfl⟩⟩

/-- C8: a handler whose body throws synchronously has the exception
caught and routed to the context's fail completion: the invocation ends
with that error recorded as its completed outcome (delivered through the
completion channel) and `_executeSync` returns normally rather than
rethrowing across the API boundary. -/
theorem handler_throw_routed_to_fail (host : Host) (cred : List (String × String))
    (loadResult : Except JsValue HandlerRun) (o : Opts) (e : Env) (ex : JsValue)
    (hcc : ∃ v, resolveClientContext o.clientContext = Except.ok v)
    (hf : o.lambdaFunc = some ⟨[], HandlerOutcome.throws ex⟩)
    (hp : truthyPath o.lambdaPath = false)
    (hev : eventThrows o.event = false) :
    ∃ env2, executeSyncModel host cred loadResult o e
      = ⟨Except.ok (Context.mk (some (Except.error ex)) 1), env2, false⟩ := by
  obtain ⟨v, hv⟩ := hcc
  have hrp : runPhase ⟨[], HandlerOutcome.throws ex⟩ o.event
      = Context.mk (some (Except.error ex)) 1 := by
    unfold runPhase
    cases hoe : o.event with
    | none => rfl
    | some ei =>
      cases ei with
      | val w => rfl
      | producer res =>
        cases res with
        | ok w => rfl
        | error err =>
          rw [hoe] at hev
          simp [eventThrows] at hev
  unfold executeSyncModel
  rw [hv, hf]
  simp only [hp, hrp, Option.isSome_some, Bool.and_false, Bool.false_eq_true, if_false]
  exact ⟨_, rfl⟩

/-- C8 witness: an inline handler that throws "boom" completes the
context with that error while `_executeSync` returns normally. -/
theorem handler_throw_routed_to_fail_witness :
    ∃ env2, executeSyncModel sampleHost []
        (Except.ok ⟨[], HandlerOutcome.returns JsValue.undefined⟩)
        ⟨none, some ⟨[], HandlerOutcome.throws (JsValue.string "boom")⟩,
         none, none, JsValue.undefined, none, none⟩ []
      = ⟨Except.ok (Context.mk (some (Except.error (JsValue.string "boom"))) 1),
         env2, false⟩ :=
  handler_throw_routed_to_fail sampleHost []
    (Except.ok ⟨[], HandlerOutcome.returns JsValue.undefined⟩)
    ⟨none, some ⟨[], HandlerOutcome.throws (JsValue.string "boom")⟩,
     none, none, JsValue.undefined, none, none⟩ []
    (JsValue.string "boom") ⟨JsValue.null, rfl⟩ rfl rfl rfl

/-- C4: the staged handler identifier is the basename of the handler
path without its extension, then a dot, then the export name; with no
path the basename part is the literal index.  In particular
/a/b/foo.js with export bar gives foo.bar, and no path with export bar
gives index.bar. -/
theorem handler_identifier_derivation :
    (∀ p h, handlerIdentifier (some p) h = specBasenameNoExt p ++ "." ++ h)
    ∧ (∀ h, handlerIdentifier none h = "index." ++ h)
    ∧ handlerIdentifier (some "/a/b/foo.js") "bar" = "foo.bar"
    ∧ handlerIdentifier none "bar" = "index.bar" := by
  refine ⟨?_, fun h => rfl, by decide, by decide⟩
  intro p h
  show pathBasename2 p (pathExtname p) ++ "." ++ h = specBasenameNoExt p ++ "." ++ h
  unfold pathBasename2 pathExtname specBasenameNoExt
  have hl : (String.mk (extnameChars (basenameChars p.toList))).toList
      = extnameChars (basenameChars p.toList) := rfl
  rw [hl, basename2_extname_eq_specStem]

end LambdaLocal
